import Mathlib

/-!
Verification of the keyboard-layout distance-matrix generator
(scripts/generate_keyboard_layout.py).

The Python script is embedded shallowly: each Python function becomes a Lean
definition over `List`/`Nat`/`Char`, the Python dict built by
`get_key_positions` becomes a lookup function built by folding insertions (so
later insertions override earlier ones, exactly as dict assignment does), and
the byte output of `write_layout_file` becomes a `List Nat` of byte values.
-/

set_option maxHeartbeats 1000000
set_option maxRecDepth 8192

/-- Magic header for keyboard layout files: the bytes of `b"KYBD"`. -/
def MAGIC : List Nat := [75, 89, 66, 68]

/-- Format version byte. -/
def VERSION : Nat := 1

/-- QWERTY keyboard layout - each row is a list of keys. -/
def QWERTY_ROWS : List (List Char) :=
  ["qwertyuiop".toList, "asdfghjkl".toList, "zxcvbnm".toList]

/-- AZERTY keyboard layout (French). -/
def AZERTY_ROWS : List (List Char) :=
  ["azertyuiop".toList, "qsdfghjklm".toList, "wxcvbn".toList]

/-- QWERTZ keyboard layout (German). -/
def QWERTZ_ROWS : List (List Char) :=
  ["qwertzuiop".toList, "asdfghjkl".toList, "yxcvbnm".toList]

/-- Dvorak keyboard layout. -/
def DVORAK_ROWS : List (List Char) :=
  ["pyfgcrl".toList, "aoeuidhtns".toList, "qjkxbmwvz".toList]

/-- Colemak keyboard layout. -/
def COLEMAK_ROWS : List (List Char) :=
  ["qwfpgjluy".toList, "arstdhneio".toList, "zxcvbkm".toList]

/-- Layout name to rows mapping (insertion order of the Python dict). -/
def LAYOUTS : List (String × List (List Char)) :=
  [("qwerty", QWERTY_ROWS),
   ("azerty", AZERTY_ROWS),
   ("qwertz", QWERTZ_ROWS),
   ("dvorak", DVORAK_ROWS),
   ("colemak", COLEMAK_ROWS)]

/-- Row offsets to simulate keyboard stagger (in half-key units):
`row_offsets = [0, 1, 3]`. -/
def row_offsets : List Nat := [0, 1, 3]

/-- The offset chosen for a row:
`row_offsets[row_idx] if row_idx < len(row_offsets) else row_idx * 2`. -/
def rowOffset (row_idx : Nat) : Nat :=
  row_offsets.getD row_idx (row_idx * 2)

/-- The `(key, (row_idx * 2, col_idx * 2 + offset))` entries produced by the
inner loop of `get_key_positions` for one row, with `ci` the column index of
the first listed key. -/
def rowEntries (row_idx off : Nat) : Nat → List Char → List (Char × Nat × Nat)
  | _, [] => []
  | ci, key :: rest =>
      (key, (row_idx * 2, ci * 2 + off)) :: rowEntries row_idx off (ci + 1) rest

/-- All dict-insertion entries produced by `get_key_positions`, in program
order, starting at row index `ri`. -/
def keyEntriesAux : Nat → List (List Char) → List (Char × Nat × Nat)
  | _, [] => []
  | ri, row :: rest =>
      rowEntries ri (rowOffset ri) 0 row ++ keyEntriesAux (ri + 1) rest

/-- All dict-insertion entries of `get_key_positions`, in program order. -/
def keyEntries (rows : List (List Char)) : List (Char × Nat × Nat) :=
  keyEntriesAux 0 rows

/-- One Python dict assignment `positions[key] = value`, as an update of a
lookup function. -/
def dictInsert (m : Char → Option (Nat × Nat)) (e : Char × Nat × Nat) :
    Char → Option (Nat × Nat) :=
  fun c => if c = e.1 then some e.2 else m c

/-- Get `(row, col)` position for each key.  The Python dict is modelled as
the lookup function obtained by folding the assignments over the empty map. -/
def get_key_positions (rows : List (List Char)) : Char → Option (Nat × Nat) :=
  (keyEntries rows).foldl dictInsert (fun _ => none)

/-- The letter `chr(ord('a') + i)`. -/
def letterOfIdx (i : Nat) : Char :=
  Char.ofNat (97 + i)

/-- The value the matrix cell `[i][j]` ends up with: `0` on the diagonal,
the Chebyshev classification when both letters are on the keyboard, and the
initial fill value `255` otherwise. -/
def classify (positions : Char → Option (Nat × Nat)) (i j : Nat) : Nat :=
  if i = j then 0
  else
    match positions (letterOfIdx i), positions (letterOfIdx j) with
    | some pos_i, some pos_j =>
        let row_diff := ((pos_i.1 : Int) - (pos_j.1 : Int)).natAbs
        let col_diff := ((pos_i.2 : Int) - (pos_j.2 : Int)).natAbs
        let chebyshev := max row_diff col_diff
        if chebyshev ≤ 2 then 1
        else if chebyshev ≤ 4 then 2
        else 255
    | _, _ => 255

/-- Compute keyboard distance matrix for all letter pairs (26x26). -/
def compute_distance_matrix (rows : List (List Char)) : List (List Nat) :=
  (List.range 26).map fun i =>
    (List.range 26).map fun j =>
      classify (get_key_positions rows) i j

/-- Cell `[i][j]` of the computed matrix (defaults never reached for
`i, j < 26`). -/
def matrixEntry (rows : List (List Char)) (i j : Nat) : Nat :=
  ((compute_distance_matrix rows).getD i []).getD j 255

/-- The byte sequence `write_layout_file` writes for a given matrix:
magic, version, then the 26 rows of 26 bytes each, row-major. -/
def serialize_matrix (matrix : List (List Nat)) : List Nat :=
  MAGIC ++ VERSION :: matrix.flatten

/-- The byte content of the file `write_layout_file` produces for a layout. -/
def encode_layout (rows : List (List Char)) : List Nat :=
  serialize_matrix (compute_distance_matrix rows)

/-- Error kinds of the spec (§7): unknown layout name, I/O failure, wrong
magic or version on decode, decode input shorter than 681 bytes. -/
inductive LayoutFileError where
  | UnknownLayout
  | IoFailure
  | MalformedFile
  | TruncatedFile
deriving DecidableEq, Repr

/-- Cut a 676-byte payload back into 26 rows of 26 bytes, row-major. -/
def parse_matrix (payload : List Nat) : List (List Nat) :=
  (List.range 26).map fun i => (payload.drop (26 * i)).take 26

/-- Modelled from the spec: the decode operation of the MatrixSerializer.
Only the encoder appears in src (write_layout_file); §4.3 of the spec requires
the symmetric decode that checks that at least 4 + 1 + 26*26 = 681 bytes are
available (else TruncatedFile), validates the magic tag and the version byte
before trusting the payload (else MalformedFile), and then reads the 26 rows
of 26 bytes. -/
def decode_layout (bs : List Nat) : Except LayoutFileError (List (List Nat)) :=
  if bs.length < 681 then Except.error LayoutFileError.TruncatedFile
  else if bs.take 4 = MAGIC ∧ bs.getD 4 0 = VERSION then
    Except.ok (parse_matrix (bs.drop 5))
  else Except.error LayoutFileError.MalformedFile

/-- The registry's known layout names, in order. -/
def knownLayoutNames : List String :=
  LAYOUTS.map Prod.fst

/-- The argparse stage of `main`: the `--layout` argument must be one of the
known names or `"all"` (otherwise argparse rejects the invocation), and the
selected list is every known name for `"all"`, else the singleton. -/
def parse_layout_arg (arg : String) : Option (List String) :=
  if knownLayoutNames.contains arg ∨ arg = "all" then
    some (if arg = "all" then knownLayoutNames else [arg])
  else none

/-- Dict lookup `LAYOUTS[name]`, `none` modelling the `KeyError`. -/
def find_layout (name : String) : Option (List (List Char)) :=
  (LAYOUTS.find? fun p => p.1 == name).map Prod.snd

/-- The generation loop of `main` on a list of layout names: each known name
produces its file (reported as name and byte count); an unknown name raises
`KeyError` in `LAYOUTS[layout_name]`, which aborts the loop, so nothing after
it is generated and the error propagates. -/
def generate_layouts : List String → List (String × Nat) × Option LayoutFileError
  | [] => ([], none)
  | name :: rest =>
      match find_layout name with
      | none => ([], some LayoutFileError.UnknownLayout)
      | some rows =>
          let r := generate_layouts rest
          ((name, (encode_layout rows).length) :: r.1, r.2)

/-- The whole driver: argparse validation, then the generation loop. -/
def run_main (arg : String) : Except LayoutFileError (List (String × Nat)) :=
  match parse_layout_arg arg with
  | none => Except.error LayoutFileError.UnknownLayout
  | some names =>
      match (generate_layouts names).2 with
      | some e => Except.error e
      | none => Except.ok (generate_layouts names).1

/-- File-system events performed by `write_layout_file`: `open(path, "wb")`
(which creates or truncates the file at `path`) and a write appending bytes
to the already-open file at `path`. -/
inductive FsEvent where
  | openW (path : String)
  | write (path : String) (bytes : List Nat)
deriving DecidableEq, Repr

/-- The path an event touches. -/
def eventPath : FsEvent → String
  | FsEvent.openW p => p
  | FsEvent.write p _ => p

/-- Effect of one event on the visible file-system state (path to byte
content, `none` when no file exists at the path). -/
def applyEvent (st : String → Option (List Nat)) : FsEvent → String → Option (List Nat)
  | FsEvent.openW p => fun q => if q = p then some [] else st q
  | FsEvent.write p bs => fun q => if q = p then (st p).map (· ++ bs) else st q

/-- Visible content at `path` after a sequence of events, starting from no
file. -/
def fs_after (events : List FsEvent) (path : String) : Option (List Nat) :=
  (events.foldl applyEvent fun _ => none) path

/-- The exact sequence of file-system operations `write_layout_file` performs:
open the destination for writing, write the magic, write the version byte,
then write each of the 26 matrix rows. -/
def write_layout_file (output_path : String) (rows : List (List Char)) :
    List FsEvent :=
  FsEvent.openW output_path ::
  FsEvent.write output_path MAGIC ::
  FsEvent.write output_path [VERSION] ::
  (compute_distance_matrix rows).map (FsEvent.write output_path)

/-- The classification rule exactly as the spec states it, for comparison
with `classify`: class 0 if the letters are equal, class 255 if either is
absent from the position mapping, and otherwise the Chebyshev buckets
(class 1 up to 2 half-keys, class 2 up to 4, class 255 beyond). -/
def specDistanceClass (positions : Char → Option (Nat × Nat)) (i j : Nat) : Nat :=
  if i = j then 0
  else if positions (letterOfIdx i) = none ∨ positions (letterOfIdx j) = none then 255
  else
    let pos_i := (positions (letterOfIdx i)).getD (0, 0)
    let pos_j := (positions (letterOfIdx j)).getD (0, 0)
    let row_diff := ((pos_i.1 : Int) - (pos_j.1 : Int)).natAbs
    let col_diff := ((pos_i.2 : Int) - (pos_j.2 : Int)).natAbs
    let cheb := max row_diff col_diff
    if cheb ≤ 2 then 1
    else if cheb ≤ 4 then 2
    else 255

/-- Chebyshev distance between the positions of letters `i` and `j`, when
both are on the layout. -/
def chebOpt (positions : Char → Option (Nat × Nat)) (i j : Nat) : Option Nat :=
  match positions (letterOfIdx i), positions (letterOfIdx j) with
  | some pos_i, some pos_j =>
      some (max ((pos_i.1 : Int) - (pos_j.1 : Int)).natAbs
                ((pos_i.2 : Int) - (pos_j.2 : Int)).natAbs)
  | _, _ => none

lemma map_range_getD {α : Type} (f : Nat → α) (n i : Nat) (d : α) (h : i < n) :
    ((List.range n).map f).getD i d = f i := by
  simp [List.getD_eq_getElem?_getD, List.getElem?_map, List.getElem?_range, h]

lemma matrixEntry_eq_classify (rows : List (List Char)) (i j : Nat)
    (hi : i < 26) (hj : j < 26) :
    matrixEntry rows i j = classify (get_key_positions rows) i j := by
  unfold matrixEntry compute_distance_matrix
  rw [map_range_getD _ 26 i _ hi, map_range_getD _ 26 j _ hj]

lemma classify_diag (positions : Char → Option (Nat × Nat)) (i : Nat) :
    classify positions i i = 0 := by
  simp [classify]

lemma classify_eq_spec (positions : Char → Option (Nat × Nat)) (i j : Nat) :
    classify positions i j = specDistanceClass positions i j := by
  by_cases hij : i = j
  · simp [classify, specDistanceClass, hij]
  · cases h1 : positions (letterOfIdx i) with
    | none => simp [classify, specDistanceClass, hij, h1]
    | some pos_i =>
        cases h2 : positions (letterOfIdx j) with
        | none => simp [classify, specDistanceClass, hij, h1, h2]
        | some pos_j => simp [classify, specDistanceClass, hij, h1, h2]

lemma classify_symm (positions : Char → Option (Nat × Nat)) (i j : Nat) :
    classify positions i j = classify positions j i := by
  by_cases hij : i = j
  · simp [hij]
  · have hji : ¬ j = i := fun h => hij h.symm
    cases h1 : positions (letterOfIdx i) with
    | none =>
        cases h2 : positions (letterOfIdx j) with
        | none => simp [classify, hij, hji, h1, h2]
        | some pos_j => simp [classify, hij, hji, h1, h2]
    | some pos_i =>
        cases h2 : positions (letterOfIdx j) with
        | none => simp [classify, hij, hji, h1, h2]
        | some pos_j =>
            have hr : ((pos_i.1 : Int) - (pos_j.1 : Int)).natAbs
                = ((pos_j.1 : Int) - (pos_i.1 : Int)).natAbs := by
              rw [← Int.natAbs_neg, Int.neg_sub]
            have hc : ((pos_i.2 : Int) - (pos_j.2 : Int)).natAbs
                = ((pos_j.2 : Int) - (pos_i.2 : Int)).natAbs := by
              rw [← Int.natAbs_neg, Int.neg_sub]
            simp [classify, hij, hji, h1, h2, hr, hc]

lemma classify_values (positions : Char → Option (Nat × Nat)) (i j : Nat) :
    classify positions i j = 0 ∨ classify positions i j = 1 ∨
    classify positions i j = 2 ∨ classify positions i j = 255 := by
  unfold classify
  split
  · exact Or.inl rfl
  · split
    · dsimp only
      split
      · exact Or.inr (Or.inl rfl)
      · split
        · exact Or.inr (Or.inr (Or.inl rfl))
        · exact Or.inr (Or.inr (Or.inr rfl))
    · exact Or.inr (Or.inr (Or.inr rfl))

lemma classify_absent_left (positions : Char → Option (Nat × Nat)) (i j : Nat)
    (h : positions (letterOfIdx i) = none) (hij : i ≠ j) :
    classify positions i j = 255 := by
  simp [classify, hij, h]

lemma classify_absent_right (positions : Char → Option (Nat × Nat)) (i j : Nat)
    (h : positions (letterOfIdx j) = none) (hij : i ≠ j) :
    classify positions i j = 255 := by
  cases h1 : positions (letterOfIdx i) with
  | none => simp [classify, hij, h1]
  | some pos_i => simp [classify, hij, h1, h]

lemma classify_far (positions : Char → Option (Nat × Nat)) (i j : Nat)
    (hi : (positions (letterOfIdx i)).isSome)
    (hj : (positions (letterOfIdx j)).isSome)
    (h : classify positions i j = 255) :
    i ≠ j ∧ ∃ d, chebOpt positions i j = some d ∧ 4 < d := by
  obtain ⟨pos_i, h1⟩ := Option.isSome_iff_exists.mp hi
  obtain ⟨pos_j, h2⟩ := Option.isSome_iff_exists.mp hj
  by_cases hij : i = j
  · rw [hij, classify_diag] at h; exact absurd h (by decide)
  · refine ⟨hij, ?_⟩
    rw [chebOpt, h1, h2]
    refine ⟨_, rfl, ?_⟩
    by_contra hle
    push_neg at hle
    simp only [classify, hij, if_false, h1, h2] at h
    rcases Nat.lt_or_ge (max ((pos_i.1 : Int) - (pos_j.1 : Int)).natAbs
        ((pos_i.2 : Int) - (pos_j.2 : Int)).natAbs) 3 with hlt | hge
    · rw [if_pos (by omega)] at h; exact absurd h (by decide)
    · rw [if_neg (by omega), if_pos (by omega)] at h; exact absurd h (by decide)

lemma foldl_dictInsert_of_not_mem (l : List (Char × Nat × Nat))
    (f : Char → Option (Nat × Nat)) (c : Char) (h : ∀ e ∈ l, c ≠ e.1) :
    (l.foldl dictInsert f) c = f c := by
  induction l generalizing f with
  | nil => rfl
  | cons a t ih =>
      rw [List.foldl_cons, ih _ fun e he => h e (List.mem_cons_of_mem a he)]
      have : ¬ c = a.1 := h a (List.mem_cons_self a t)
      simp [dictInsert, this]

lemma foldl_dictInsert_of_filter_singleton (l : List (Char × Nat × Nat))
    (f : Char → Option (Nat × Nat)) (c : Char) (v : Nat × Nat)
    (h : l.filter (fun e => decide (c = e.1)) = [(c, v)]) :
    (l.foldl dictInsert f) c = some v := by
  induction l generalizing f with
  | nil => simp at h
  | cons a t ih =>
      by_cases hc : c = a.1
      · rw [List.filter_cons_of_pos (by simpa using hc)] at h
        have ha : a = (c, v) := (List.cons_eq_cons.mp h).1
        have ht : t.filter (fun e => decide (c = e.1)) = [] :=
          (List.cons_eq_cons.mp h).2
        have hnone : ∀ e ∈ t, c ≠ e.1 := by
          intro e he
          have := List.filter_eq_nil_iff.mp ht e he
          simpa using this
        rw [List.foldl_cons, foldl_dictInsert_of_not_mem t _ c hnone]
        simp [dictInsert, ha]
      · rw [List.filter_cons_of_neg (by simpa using hc)] at h
        rw [List.foldl_cons, ih _ h]

lemma rowEntries_key_mem (row : List Char) : ∀ (ri off ci : Nat)
    (e : Char × Nat × Nat), e ∈ rowEntries ri off ci row → e.1 ∈ row := by
  induction row with
  | nil => intro ri off ci e he; simp [rowEntries] at he
  | cons k rest ih =>
      intro ri off ci e he
      rcases List.mem_cons.mp he with h | h
      · rw [h]; exact List.mem_cons_self k rest
      · exact List.mem_cons_of_mem k (ih ri off (ci + 1) e h)

lemma keyEntriesAux_key_mem (rows : List (List Char)) : ∀ (ri : Nat)
    (e : Char × Nat × Nat), e ∈ keyEntriesAux ri rows → ∃ row ∈ rows, e.1 ∈ row := by
  induction rows with
  | nil => intro ri e he; simp [keyEntriesAux] at he
  | cons row rest ih =>
      intro ri e he
      rcases List.mem_append.mp he with h | h
      · exact ⟨row, List.mem_cons_self row rest, rowEntries_key_mem row ri _ 0 e h⟩
      · obtain ⟨row', hmem, hkey⟩ := ih (ri + 1) e h
        exact ⟨row', List.mem_cons_of_mem row hmem, hkey⟩

lemma get_key_positions_of_absent (rows : List (List Char)) (ch : Char)
    (h : ∀ row ∈ rows, ch ∉ row) : get_key_positions rows ch = none := by
  apply foldl_dictInsert_of_not_mem
  intro e he hch
  obtain ⟨row, hrow, hkey⟩ := keyEntriesAux_key_mem rows 0 e he
  exact h row hrow (hch ▸ hkey)

lemma countP_rowEntries (row : List Char) (ch : Char) : ∀ (ri off ci : Nat),
    (rowEntries ri off ci row).countP (fun e => decide (ch = e.1))
      = row.countP (fun k => decide (ch = k)) := by
  induction row with
  | nil => intro ri off ci; rfl
  | cons k rest ih =>
      intro ri off ci
      rw [rowEntries, List.countP_cons, List.countP_cons, ih ri off (ci + 1)]

lemma countP_keyEntriesAux (rows : List (List Char)) (ch : Char) : ∀ (ri : Nat),
    (keyEntriesAux ri rows).countP (fun e => decide (ch = e.1))
      = (rows.map fun row => row.countP (fun k => decide (ch = k))).sum := by
  induction rows with
  | nil => intro ri; rfl
  | cons row rest ih =>
      intro ri
      rw [keyEntriesAux, List.countP_append, countP_rowEntries, ih (ri + 1),
        List.map_cons, List.sum_cons]

lemma rowEntries_mem (row : List Char) : ∀ (ri off ci c : Nat)
    (hc : c < row.length),
    (row.get ⟨c, hc⟩, (ri * 2, (ci + c) * 2 + off)) ∈ rowEntries ri off ci row := by
  induction row with
  | nil => intro ri off ci c hc; exact absurd hc (by simp)
  | cons k rest ih =>
      intro ri off ci c hc
      cases c with
      | zero => simp [rowEntries]
      | succ c' =>
          have := ih ri off (ci + 1) c' (Nat.lt_of_succ_lt_succ hc)
          have harith : ci + 1 + c' = ci + (c' + 1) := by omega
          rw [harith] at this
          exact List.mem_cons_of_mem _ this

lemma keyEntriesAux_mem (rows : List (List Char)) : ∀ (ri r c : Nat)
    (hr : r < rows.length) (hc : c < (rows.get ⟨r, hr⟩).length),
    ((rows.get ⟨r, hr⟩).get ⟨c, hc⟩, ((ri + r) * 2, c * 2 + rowOffset (ri + r)))
      ∈ keyEntriesAux ri rows := by
  induction rows with
  | nil => intro ri r c hr; exact absurd hr (by simp)
  | cons row rest ih =>
      intro ri r c hr hc
      cases r with
      | zero =>
          apply List.mem_append_left
          have := rowEntries_mem row ri (rowOffset ri) 0 c hc
          simpa using this
      | succ r' =>
          apply List.mem_append_right
          have := ih (ri + 1) r' c (Nat.lt_of_succ_lt_succ hr) hc
          have harith : ri + 1 + r' = ri + (r' + 1) := by omega
          rw [harith] at this
          exact this

lemma get_key_positions_of_unique (rows : List (List Char)) (r c : Nat)
    (ch : Char) (hr : r < rows.length) (hc : c < (rows.get ⟨r, hr⟩).length)
    (hch : (rows.get ⟨r, hr⟩).get ⟨c, hc⟩ = ch)
    (huniq : (rows.map fun row => row.countP (fun k => decide (ch = k))).sum = 1) :
    get_key_positions rows ch = some (r * 2, c * 2 + rowOffset r) := by
  have hcount : (keyEntries rows).countP (fun e => decide (ch = e.1)) = 1 := by
    rw [keyEntries, countP_keyEntriesAux rows ch 0, huniq]
  have hlen : ((keyEntries rows).filter (fun e => decide (ch = e.1))).length = 1 := by
    rw [← List.countP_eq_length_filter]; exact hcount
  have hmem : (ch, (r * 2, c * 2 + rowOffset r)) ∈ keyEntries rows := by
    have := keyEntriesAux_mem rows 0 r c hr hc
    rw [Nat.zero_add, hch] at this
    exact this
  have hmemf : (ch, (r * 2, c * 2 + rowOffset r))
      ∈ (keyEntries rows).filter (fun e => decide (ch = e.1)) :=
    List.mem_filter.mpr ⟨hmem, by simp⟩
  obtain ⟨a, ha⟩ := List.length_eq_one.mp hlen
  rw [ha] at hmemf
  have : a = (ch, (r * 2, c * 2 + rowOffset r)) := (List.mem_singleton.mp hmemf).symm
  rw [this] at ha
  exact foldl_dictInsert_of_filter_singleton _ _ ch _ ha

lemma compute_distance_matrix_length (rows : List (List Char)) :
    (compute_distance_matrix rows).length = 26 := by
  simp [compute_distance_matrix]

lemma compute_distance_matrix_row_length (rows : List (List Char)) :
    ∀ r ∈ compute_distance_matrix rows, r.length = 26 := by
  intro r hr
  obtain ⟨i, _, hi⟩ := List.mem_map.mp hr
  rw [← hi]
  simp

lemma flatten_length_of_shape (m : List (List Nat)) (h : ∀ r ∈ m, r.length = 26) :
    m.flatten.length = 26 * m.length := by
  induction m with
  | nil => rfl
  | cons r t ih =>
      rw [List.flatten_cons, List.length_append, h r (List.mem_cons_self r t),
        ih fun x hx => h x (List.mem_cons_of_mem r hx), List.length_cons]
      ring

lemma encode_layout_length (rows : List (List Char)) :
    (encode_layout rows).length = 681 := by
  have h : (compute_distance_matrix rows).flatten.length = 676 := by
    rw [flatten_length_of_shape _ (compute_distance_matrix_row_length rows),
      compute_distance_matrix_length]
  simp [encode_layout, serialize_matrix, MAGIC, h]

lemma drop_append_length {α : Type} (a b : List α) (n : Nat) :
    (a ++ b).drop (a.length + n) = b.drop n := by
  induction a with
  | nil => simp
  | cons x t ih =>
      have : (x :: t).length + n = (t.length + n) + 1 := by simp; omega
      rw [this, List.cons_append, List.drop_succ_cons, ih]

lemma flatten_extract (m : List (List Nat)) (h : ∀ r ∈ m, r.length = 26) :
    ∀ (i : Nat) (hi : i < m.length),
      (m.flatten.drop (26 * i)).take 26 = m.get ⟨i, hi⟩ := by
  induction m with
  | nil => intro i hi; exact absurd hi (by simp)
  | cons r t ih =>
      intro i hi
      have hr : r.length = 26 := h r (List.mem_cons_self r t)
      cases i with
      | zero =>
          rw [Nat.mul_zero, List.drop_zero, List.flatten_cons, ← hr,
            List.take_left]
          rfl
      | succ i' =>
          have harith : 26 * (i' + 1) = r.length + 26 * i' := by rw [hr]; ring
          rw [List.flatten_cons, harith, drop_append_length,
            ih (fun x hx => h x (List.mem_cons_of_mem r hx)) i'
              (Nat.lt_of_succ_lt_succ hi)]
          rfl

lemma parse_matrix_flatten (m : List (List Nat)) (hlen : m.length = 26)
    (h : ∀ r ∈ m, r.length = 26) : parse_matrix m.flatten = m := by
  apply List.ext_getElem
  · simp [parse_matrix, hlen]
  · intro i h1 h2
    have hi26 : i < 26 := by simpa [parse_matrix] using h1
    simp only [parse_matrix, List.getElem_map, List.getElem_range]
    rw [flatten_extract m h i h2, List.get_eq_getElem]

lemma decode_serialize (m : List (List Nat)) (hlen : m.length = 26)
    (h : ∀ r ∈ m, r.length = 26) :
    decode_layout (serialize_matrix m) = Except.ok m := by
  have h676 : m.flatten.length = 676 := by
    rw [flatten_length_of_shape m h, hlen]
  have h681 : (serialize_matrix m).length = 681 := by
    simp [serialize_matrix, MAGIC, h676]
  have hcond1 : ¬ (serialize_matrix m).length < 681 := by rw [h681]; omega
  have hcond2 : (serialize_matrix m).take 4 = MAGIC ∧
      (serialize_matrix m).getD 4 0 = VERSION := ⟨rfl, rfl⟩
  rw [decode_layout, if_neg hcond1, if_pos hcond2]
  have hdrop : (serialize_matrix m).drop 5 = m.flatten := rfl
  rw [hdrop, parse_matrix_flatten m hlen h]

lemma decode_short (bs : List Nat) (h : bs.length < 681) :
    decode_layout bs = Except.error LayoutFileError.TruncatedFile := by
  rw [decode_layout, if_pos h]

lemma decode_bad_header (bs : List Nat) (h1 : 681 ≤ bs.length)
    (h2 : bs.take 4 ≠ MAGIC ∨ bs.getD 4 0 ≠ VERSION) :
    decode_layout bs = Except.error LayoutFileError.MalformedFile := by
  have hcond1 : ¬ bs.length < 681 := by omega
  have hcond2 : ¬ (bs.take 4 = MAGIC ∧ bs.getD 4 0 = VERSION) := by
    rcases h2 with h | h
    · exact fun hc => h hc.1
    · exact fun hc => h hc.2
  rw [decode_layout, if_neg hcond1, if_neg hcond2]

lemma find_layout_isSome_of_mem (n : String) (h : n ∈ knownLayoutNames) :
    (find_layout n).isSome := by
  obtain ⟨p, hp, hpn⟩ := List.mem_map.mp h
  have hs : (LAYOUTS.find? fun q => q.1 == n).isSome :=
    List.find?_isSome.mpr ⟨p, hp, by simp [hpn]⟩
  obtain ⟨q, hq⟩ := Option.isSome_iff_exists.mp hs
  rw [find_layout, hq]
  rfl

lemma parse_layout_arg_names_known (arg : String) (names : List String)
    (h : parse_layout_arg arg = some names) : ∀ n ∈ names, n ∈ knownLayoutNames := by
  unfold parse_layout_arg at h
  by_cases hcond : knownLayoutNames.contains arg ∨ arg = "all"
  · rw [if_pos hcond] at h
    injection h with h'
    by_cases hall : arg = "all"
    · rw [if_pos hall] at h'
      rw [← h']
      exact fun n hn => hn
    · rw [if_neg hall] at h'
      rw [← h']
      intro n hn
      rw [List.mem_singleton.mp hn]
      rcases hcond with hc | hc
      · simpa using hc
      · exact absurd hc hall
  · rw [if_neg hcond] at h
    exact absurd h (by simp)

lemma generate_layouts_all_known (names : List String)
    (h : ∀ n ∈ names, (find_layout n).isSome) :
    generate_layouts names = (names.map fun n => (n, 681), none) := by
  induction names with
  | nil => rfl
  | cons n t ih =>
      obtain ⟨rows, hrows⟩ :=
        Option.isSome_iff_exists.mp (h n (List.mem_cons_self n t))
      simp only [generate_layouts, hrows, encode_layout_length,
        ih fun x hx => h x (List.mem_cons_of_mem n hx), List.map_cons]

lemma generate_layouts_abort (pre : List String) (u : String)
    (post : List String) (hu : find_layout u = none)
    (hpre : ∀ n ∈ pre, (find_layout n).isSome) :
    generate_layouts (pre ++ u :: post)
      = (pre.map fun n => (n, 681), some LayoutFileError.UnknownLayout) := by
  induction pre with
  | nil => simp only [List.nil_append, generate_layouts, hu, List.map_nil]
  | cons n t ih =>
      obtain ⟨rows, hrows⟩ :=
        Option.isSome_iff_exists.mp (hpre n (List.mem_cons_self n t))
      simp only [List.cons_append, generate_layouts, hrows, encode_layout_length,
        List.map_cons, List.append_eq]
      rw [ih fun x hx => hpre x (List.mem_cons_of_mem n hx)]

lemma run_main_unknown (arg : String) (h : parse_layout_arg arg = none) :
    run_main arg = Except.error LayoutFileError.UnknownLayout := by
  simp only [run_main, h]

lemma run_main_ok (arg : String) (names : List String)
    (h : parse_layout_arg arg = some names) :
    run_main arg = Except.ok (names.map fun n => (n, 681)) := by
  have hall : ∀ n ∈ names, (find_layout n).isSome := fun n hn =>
    find_layout_isSome_of_mem n (parse_layout_arg_names_known arg names h n hn)
  simp only [run_main, h, generate_layouts_all_known names hall]

lemma foldl_writes (ws : List (List Nat)) (path : String) :
    ∀ st : String → Option (List Nat),
      ((ws.map (FsEvent.write path)).foldl applyEvent st) path
        = (st path).map (· ++ ws.flatten) := by
  induction ws with
  | nil =>
      intro st
      cases h : st path <;> simp [h]
  | cons r t ih =>
      intro st
      rw [List.map_cons, List.foldl_cons, ih]
      cases h : st path <;> simp [applyEvent, h, List.append_assoc]

lemma fs_after_write_layout (path : String) (rows : List (List Char)) :
    fs_after (write_layout_file path rows) path = some (encode_layout rows) := by
  rw [write_layout_file, fs_after, List.foldl_cons, List.foldl_cons,
    List.foldl_cons, foldl_writes]
  simp [applyEvent, encode_layout, serialize_matrix]

lemma write_layout_file_targets (path : String) (rows : List (List Char)) :
    (write_layout_file path rows).all (fun e => eventPath e == path) = true := by
  rw [List.all_eq_true]
  intro e he
  rcases List.mem_cons.mp he with h | he2
  · rw [h]; simp [eventPath]
  rcases List.mem_cons.mp he2 with h | he3
  · rw [h]; simp [eventPath]
  rcases List.mem_cons.mp he3 with h | he4
  · rw [h]; simp [eventPath]
  obtain ⟨row, _, hrow⟩ := List.mem_map.mp he4
  rw [← hrow]
  simp [eventPath]

lemma fs_after_write_header_only (path : String) (rows : List (List Char)) :
    fs_after ((write_layout_file path rows).take 3) path
      = some (MAGIC ++ [VERSION]) := by
  rw [write_layout_file]
  simp [fs_after, applyEvent]

lemma layouts_cover : ∀ L ∈ LAYOUTS, ∀ i : Fin 26,
    (get_key_positions L.2 (letterOfIdx i.val)).isSome := by decide

/-- C1: for every layout and every ordered pair of letter indices in 0..25,
the distance matrix entry follows exactly the spec rule: class 0 on the
diagonal, class 255 when either letter is absent from the position mapping,
and otherwise the Chebyshev buckets (1 when cheb <= 2, 2 when cheb <= 4,
255 beyond). -/
theorem distance_matrix_rule (rows : List (List Char)) (i j : Fin 26) :
    matrixEntry rows i.val j.val
      = specDistanceClass (get_key_positions rows) i.val j.val := by
  rw [matrixEntry_eq_classify rows i.val j.val i.isLt j.isLt, classify_eq_spec]

/-- C2: the position model sends the key at row `r`, column `c` to
`(2r, 2c + stagger r)` with stagger 0, 1, 3 for the first three rows and
`2r` beyond, and letters not on the layout are absent from the mapping. -/
theorem position_model_spec :
    (rowOffset 0 = 0 ∧ rowOffset 1 = 1 ∧ rowOffset 2 = 3)
    ∧ (∀ r : Nat, 2 < r → rowOffset r = 2 * r)
    ∧ (∀ (rows : List (List Char)) (ch : Char), (∀ row ∈ rows, ch ∉ row) →
        get_key_positions rows ch = none)
    ∧ (∀ (rows : List (List Char)) (r c : Nat) (ch : Char)
        (hr : r < rows.length) (hc : c < (rows.get ⟨r, hr⟩).length),
        (rows.get ⟨r, hr⟩).get ⟨c, hc⟩ = ch →
        (rows.map fun row => row.countP (fun k => decide (ch = k))).sum = 1 →
        get_key_positions rows ch = some (2 * r, 2 * c + rowOffset r)) := by
  refine ⟨by decide, ?_, get_key_positions_of_absent, ?_⟩
  · intro r hr
    rw [rowOffset, List.getD_eq_getElem?_getD,
      List.getElem?_eq_none (by simp [row_offsets]; omega)]
    simp [Nat.mul_comm]
  · intro rows r c ch hr hc hch huniq
    rw [Nat.mul_comm 2 r, Nat.mul_comm 2 c]
    exact get_key_positions_of_unique rows r c ch hr hc hch huniq

theorem position_model_spec_witness :
    get_key_positions QWERTY_ROWS 'x' = some (2 * 2, 2 * 1 + rowOffset 2)
    ∧ get_key_positions [['a']] 'b' = none := by
  constructor
  · exact position_model_spec.2.2.2 QWERTY_ROWS 2 1 'x' (by decide) (by decide)
      (by decide) (by decide)
  · exact position_model_spec.2.2.1 [['a']] 'b' (by decide)

/-- C3: the encoded file is always the 4 magic bytes K, Y, B, D, the version
byte 1, and the 676 matrix bytes in row-major order, 681 bytes in all. -/
theorem encode_format (rows : List (List Char)) :
    (encode_layout rows).length = 681
    ∧ (encode_layout rows).take 5 = [75, 89, 66, 68, 1]
    ∧ (encode_layout rows).drop 5 = (compute_distance_matrix rows).flatten :=
  ⟨encode_layout_length rows, rfl, rfl⟩

/-- C4: the computed distance matrix is symmetric for every layout. -/
theorem matrix_symmetric (rows : List (List Char)) (i j : Fin 26) :
    matrixEntry rows i.val j.val = matrixEntry rows j.val i.val := by
  rw [matrixEntry_eq_classify rows i.val j.val i.isLt j.isLt,
    matrixEntry_eq_classify rows j.val i.val j.isLt i.isLt, classify_symm]

/-- C5: every diagonal entry is 0, including for letters absent from the
layout, and an absent letter's off-diagonal entries are all 255 in both
directions. -/
theorem diagonal_and_absent (rows : List (List Char)) (i j : Fin 26) :
    matrixEntry rows i.val i.val = 0
    ∧ (get_key_positions rows (letterOfIdx i.val) = none → i ≠ j →
        matrixEntry rows i.val j.val = 255 ∧ matrixEntry rows j.val i.val = 255) := by
  refine ⟨?_, fun habs hij => ⟨?_, ?_⟩⟩
  · rw [matrixEntry_eq_classify rows i.val i.val i.isLt i.isLt, classify_diag]
  · rw [matrixEntry_eq_classify rows i.val j.val i.isLt j.isLt]
    exact classify_absent_left _ _ _ habs fun h => hij (Fin.ext h)
  · rw [matrixEntry_eq_classify rows j.val i.val j.isLt i.isLt]
    exact classify_absent_right _ _ _ habs fun h => hij (Fin.ext h.symm)

theorem diagonal_and_absent_witness :
    matrixEntry [['a', 'b']] 2 2 = 0
    ∧ matrixEntry [['a', 'b']] 2 0 = 255
    ∧ matrixEntry [['a', 'b']] 0 2 = 255 := by
  have h := diagonal_and_absent [['a', 'b']] ⟨2, by decide⟩ ⟨0, by decide⟩
  exact ⟨h.1, (h.2 (by decide) (by decide)).1, (h.2 (by decide) (by decide)).2⟩

/-- C6: every entry of the computed matrix is one of 0, 1, 2, 255. -/
theorem matrix_values (rows : List (List Char)) (i j : Fin 26) :
    matrixEntry rows i.val j.val = 0 ∨ matrixEntry rows i.val j.val = 1 ∨
    matrixEntry rows i.val j.val = 2 ∨ matrixEntry rows i.val j.val = 255 := by
  rw [matrixEntry_eq_classify rows i.val j.val i.isLt j.isLt]
  exact classify_values _ i.val j.val

/-- C7: encoding a 26x26 matrix and decoding it yields the matrix back;
decoding at least 681 bytes with a wrong magic tag or version byte fails
with MalformedFile; decoding fewer than 681 bytes fails with
TruncatedFile. -/
theorem serializer_contract :
    (∀ m : List (List Nat), m.length = 26 → (∀ r ∈ m, r.length = 26) →
        decode_layout (serialize_matrix m) = Except.ok m)
    ∧ (∀ bs : List Nat, 681 ≤ bs.length →
        (bs.take 4 ≠ MAGIC ∨ bs.getD 4 0 ≠ VERSION) →
        decode_layout bs = Except.error LayoutFileError.MalformedFile)
    ∧ (∀ bs : List Nat, bs.length < 681 →
        decode_layout bs = Except.error LayoutFileError.TruncatedFile) :=
  ⟨decode_serialize, decode_bad_header, decode_short⟩

theorem serializer_contract_witness :
    decode_layout (serialize_matrix (compute_distance_matrix QWERTY_ROWS))
      = Except.ok (compute_distance_matrix QWERTY_ROWS)
    ∧ decode_layout (List.replicate 681 7)
      = Except.error LayoutFileError.MalformedFile
    ∧ decode_layout (List.replicate 680 0)
      = Except.error LayoutFileError.TruncatedFile :=
  ⟨serializer_contract.1 _ (by decide) (by decide),
   serializer_contract.2.1 _ (by decide) (Or.inl (by decide)),
   serializer_contract.2.2 _ (by decide)⟩

/-- C8 counterexample: handing the generation loop the names qwerty, nosuch,
dvorak aborts at the unknown name: only qwerty is generated, dvorak (a valid
name in the same request) is not, no failure count is produced, and at the
driver level a single unknown name fails the whole invocation. -/
theorem batch_unknown_counterexample :
    generate_layouts ["qwerty", "nosuch", "dvorak"]
      = ([("qwerty", 681)], some LayoutFileError.UnknownLayout)
    ∧ ("dvorak", 681) ∉ (generate_layouts ["qwerty", "nosuch", "dvorak"]).1
    ∧ run_main "nosuch" = Except.error LayoutFileError.UnknownLayout :=
  ⟨by decide, by decide, by rfl⟩

/-- C8 amended: the driver accepts a single name or "all"; a request whose
argument is not a known name (and not "all") is rejected as a whole with
UnknownLayout and generates nothing, an accepted request generates one
681-byte file per selected name, and a name list containing an unknown name
makes the generation loop abort at that name, generating files only for the
known names before it and reporting no failure count. -/
theorem batch_unknown_amended :
    (∀ arg : String, parse_layout_arg arg = none →
        run_main arg = Except.error LayoutFileError.UnknownLayout)
    ∧ (∀ (arg : String) (names : List String), parse_layout_arg arg = some names →
        run_main arg = Except.ok (names.map fun n => (n, 681)))
    ∧ (∀ (pre : List String) (u : String) (post : List String),
        find_layout u = none → (∀ n ∈ pre, (find_layout n).isSome) →
        generate_layouts (pre ++ u :: post)
          = (pre.map fun n => (n, 681), some LayoutFileError.UnknownLayout)) :=
  ⟨run_main_unknown, run_main_ok, generate_layouts_abort⟩

theorem batch_unknown_amended_witness :
    run_main "colemakk" = Except.error LayoutFileError.UnknownLayout
    ∧ run_main "azerty" = Except.ok [("azerty", 681)]
    ∧ generate_layouts (["qwertz"] ++ "zzz" :: ["dvorak"])
      = ([("qwertz", 681)], some LayoutFileError.UnknownLayout) :=
  ⟨batch_unknown_amended.1 "colemakk" (by rfl),
   batch_unknown_amended.2.1 "azerty" ["azerty"] (by rfl),
   batch_unknown_amended.2.2 ["qwertz"] "zzz" ["dvorak"] (by rfl) (by decide)⟩

/-- C9 counterexample: the write is not atomic: after the first three
file-system events of writing the qwerty layout, the destination path itself
holds a visible 5-byte file (far short of 681 bytes), and every event of the
whole write targets the destination directly (there is no temporary path and
no rename). -/
theorem write_leaves_short_file :
    fs_after ((write_layout_file "keyboard_qwerty.bin" QWERTY_ROWS).take 3)
        "keyboard_qwerty.bin" = some [75, 89, 66, 68, 1]
    ∧ ([75, 89, 66, 68, 1] : List Nat).length < 681
    ∧ (write_layout_file "keyboard_qwerty.bin" QWERTY_ROWS).all
        (fun e => eventPath e == "keyboard_qwerty.bin") = true :=
  ⟨by decide, by decide, by decide⟩

/-- C9 amended: write_layout_file opens the destination path directly and
writes magic, version, then the 26 matrix rows in sequence; every event
targets the destination, the complete encoded content is present only after
the last event, and an interruption right after the header leaves a visible
5-byte (so shorter than 681 bytes) file at the destination. -/
theorem write_trace_structure (path : String) (rows : List (List Char)) :
    (write_layout_file path rows).all (fun e => eventPath e == path) = true
    ∧ fs_after (write_layout_file path rows) path = some (encode_layout rows)
    ∧ fs_after ((write_layout_file path rows).take 3) path
        = some (MAGIC ++ [VERSION])
    ∧ (MAGIC ++ [VERSION]).length < 681 :=
  ⟨write_layout_file_targets path rows, fs_after_write_layout path rows,
   fs_after_write_header_only path rows, by decide⟩

/-- C10: each of the five built-in layouts contains every lowercase letter
exactly once, its position mapping is total over the 26 letters, and a 255
entry only ever arises off the diagonal from a Chebyshev distance above 4,
never from an absent letter. -/
theorem builtin_layouts_total :
    (∀ L ∈ LAYOUTS, ∀ i : Fin 26,
        (L.2.map fun row => row.countP
          (fun k => decide (letterOfIdx i.val = k))).sum = 1)
    ∧ (∀ L ∈ LAYOUTS, ∀ i : Fin 26,
        (get_key_positions L.2 (letterOfIdx i.val)).isSome)
    ∧ (∀ L ∈ LAYOUTS, ∀ i j : Fin 26, matrixEntry L.2 i.val j.val = 255 →
        i ≠ j ∧ ∃ d, chebOpt (get_key_positions L.2) i.val j.val = some d ∧ 4 < d) := by
  refine ⟨by decide, layouts_cover, ?_⟩
  intro L hL i j h255
  rw [matrixEntry_eq_classify L.2 i.val j.val i.isLt j.isLt] at h255
  have h := classify_far _ _ _ (layouts_cover L hL i) (layouts_cover L hL j) h255
  exact ⟨fun hij => h.1 (congrArg Fin.val hij), h.2⟩

theorem builtin_layouts_total_witness :
    (QWERTY_ROWS.map fun row => row.countP
        (fun k => decide (letterOfIdx 0 = k))).sum = 1
    ∧ (get_key_positions QWERTY_ROWS (letterOfIdx 0)).isSome
    ∧ ((⟨16, by decide⟩ : Fin 26) ≠ ⟨15, by decide⟩
        ∧ ∃ d, chebOpt (get_key_positions QWERTY_ROWS) 16 15 = some d ∧ 4 < d) :=
  ⟨builtin_layouts_total.1 ("qwerty", QWERTY_ROWS) (by decide) ⟨0, by decide⟩,
   builtin_layouts_total.2.1 ("qwerty", QWERTY_ROWS) (by decide) ⟨0, by decide⟩,
   builtin_layouts_total.2.2 ("qwerty", QWERTY_ROWS) (by decide)
     ⟨16, by decide⟩ ⟨15, by decide⟩ (by decide)⟩

